import Mathlib

/-!
Verification development for the xsw content-aggregation cache.

Shallow embedding of the core subsystems:
* `BackgroundJobs` — src/background_jobs.py (`BackgroundJobManager`)
* `CacheMgr`       — src/cache_manager.py (`TTLCache`, `CacheManager`)
* `RateLim`        — src/rate_limiter.py (`RateLimiter`)
* `Midnight`       — src/midnight_sync.py (`MidnightSyncScheduler`)

Python dictionaries are embedded as association lists with dict insertion
semantics (updating an existing key keeps its position, a new key is
appended), Python sets as duplicate-free lists, wall-clock instants as
integers (the claims only compare and subtract timestamps), and fallible
collaborator callbacks as `Except String Unit`-valued functions.  The
random `uuid4`-based public-id generator is embedded as an explicit
supply of fresh identifier strings passed in by the caller.
-/

namespace Assoc

/-- Python `d.get(key)` / `key in d` on a dict embedded as an association list. -/
def alookup {β : Type} : List (String × β) → String → Option β
  | [], _ => none
  | (k, v) :: rest, key => if k = key then some v else alookup rest key

/-- Python `d[key] = val`: update in place if the key exists, else append. -/
def aupsert {β : Type} : List (String × β) → String → β → List (String × β)
  | [], key, val => [(key, val)]
  | (k, v) :: rest, key, val =>
      if k = key then (k, val) :: rest else (k, v) :: aupsert rest key val

/-- Python `del d[key]` / `d.pop(key, None)`: drop the binding for `key`. -/
def aerase {β : Type} (l : List (String × β)) (key : String) : List (String × β) :=
  l.filter (fun kv => kv.1 ≠ key)

theorem alookup_aupsert_self {β : Type} (l : List (String × β)) (k : String) (v : β) :
    alookup (aupsert l k v) k = some v := by
  induction l with
  | nil => simp [aupsert, alookup]
  | cons hd tl ih =>
      by_cases h : hd.1 = k
      · simp [aupsert, alookup, h]
      · simpa [aupsert, alookup, h] using ih

theorem alookup_aupsert_ne {β : Type} (l : List (String × β)) (k k' : String) (v : β)
    (h : k ≠ k') : alookup (aupsert l k v) k' = alookup l k' := by
  induction l with
  | nil => simp [aupsert, alookup, h]
  | cons hd tl ih =>
      by_cases hh : hd.1 = k
      · simp [aupsert, alookup, hh, h]
      · simp [aupsert, alookup, hh]
        by_cases hk : hd.1 = k'
        · simp [hk]
        · simpa [hk] using ih

theorem alookup_aerase_self {β : Type} (l : List (String × β)) (k : String) :
    alookup (aerase l k) k = none := by
  induction l with
  | nil => simp [aerase, alookup]
  | cons hd tl ih =>
      by_cases h : hd.1 = k
      · simpa [aerase, alookup, h] using ih
      · simpa [aerase, alookup, h] using ih

theorem alookup_aerase_ne {β : Type} (l : List (String × β)) (k k' : String)
    (h : k ≠ k') : alookup (aerase l k) k' = alookup l k' := by
  induction l with
  | nil => simp [aerase, alookup]
  | cons hd tl ih =>
      by_cases hh : hd.1 = k
      · have hne : hd.1 ≠ k' := by rw [hh]; exact h
        simpa [aerase, alookup, hh, hne, h, List.filter_cons] using ih
      · by_cases hk : hd.1 = k'
        · simp [aerase, alookup, hh, hk, Ne.symm h, List.filter_cons]
        · simpa [aerase, alookup, hh, hk, List.filter_cons] using ih

end Assoc

open Assoc

namespace BackgroundJobs

/-- Embedding of `SyncJob` (src/background_jobs.py, lines 17-26). -/
structure SyncJob where
  book_id : String
  priority : Int
  added_at : Int
  deriving Repr, DecidableEq

/-- Mutable state of `BackgroundJobManager`: the job queue, the active set and
the completed/failed history maps.  Thread bookkeeping and the mutex are not
part of the state the claims mention; all operations below execute under the
manager's single lock in the source. -/
structure JMState where
  job_queue : List SyncJob
  active_jobs : List String
  completed_jobs : List (String × Int)
  failed_jobs : List (String × Int × String)
  deriving Repr, DecidableEq

/-- Fresh manager state (`BackgroundJobManager.__init__`). -/
def JMState.init : JMState :=
  { job_queue := [], active_jobs := [], completed_jobs := [], failed_jobs := [] }

/-- Cooldown window of `timedelta(minutes=5)`, in seconds. -/
def cooldownSeconds : Int := 300

/-- Embedding of `BackgroundJobManager.enqueue_sync` (lines 93-117).
Returns the boolean result together with the updated state; `now` is the
value of `datetime.now()` in seconds. -/
def enqueueSync (st : JMState) (book_id : String) (priority : Int) (now : Int) :
    Bool × JMState :=
  if book_id ∈ st.active_jobs then
    (false, st)
  else
    match alookup st.completed_jobs book_id with
    | some completed_at =>
        if now - completed_at < cooldownSeconds then
          (false, st)
        else
          (true, { st with job_queue := st.job_queue ++ [⟨book_id, priority, now⟩] })
    | none =>
        (true, { st with job_queue := st.job_queue ++ [⟨book_id, priority, now⟩] })

/-- Embedding of `BackgroundJobManager.force_resync` (lines 132-159). -/
def forceResync (st : JMState) (book_id : String) (priority : Int) (now : Int) :
    Bool × JMState :=
  if book_id ∈ st.active_jobs then
    (false, st)
  else
    (true,
      { st with
        completed_jobs := aerase st.completed_jobs book_id,
        job_queue := st.job_queue ++ [⟨book_id, priority, now⟩] })

/-- Python `set.add`. -/
def addActive (l : List String) (id : String) : List String :=
  if id ∈ l then l else l ++ [id]

/-- Python `set.discard`. -/
def discardActive (l : List String) (id : String) : List String :=
  l.filter (fun x => x ≠ id)

/-- Embedding of `BackgroundJobManager._process_sync_job` (lines 218-241).
The metadata callback's exception is caught and only logged; the chapter
callback's exception is re-raised and becomes the job's failure. -/
def processSyncJob (book_id : String)
    (fetchBookInfo : Option (String → Except String Unit))
    (fetchChapters : Option (String → Except String Unit)) : Except String Unit :=
  let _info : Except String Unit :=
    match fetchBookInfo with
    | none => .ok ()
    | some f => f book_id
  match fetchChapters with
  | none => .ok ()
  | some f => f book_id

/-- Embedding of one iteration of `BackgroundJobManager._worker` (lines 182-211)
on a dequeued job: mark active, run `_process_sync_job`, record the outcome in
the completed/failed maps, and in a `finally` block discard the id from the
active set. -/
def runJob (st : JMState) (job : SyncJob)
    (fetchBookInfo : Option (String → Except String Unit))
    (fetchChapters : Option (String → Except String Unit)) (now : Int) : JMState :=
  let st1 := { st with active_jobs := addActive st.active_jobs job.book_id }
  match processSyncJob job.book_id fetchBookInfo fetchChapters with
  | .ok _ =>
      let st2 := { st1 with
        completed_jobs := aupsert st1.completed_jobs job.book_id now,
        failed_jobs := aerase st1.failed_jobs job.book_id }
      { st2 with active_jobs := discardActive st2.active_jobs job.book_id }
  | .error e =>
      let st2 := { st1 with failed_jobs := aupsert st1.failed_jobs job.book_id (now, e) }
      { st2 with active_jobs := discardActive st2.active_jobs job.book_id }

end BackgroundJobs

namespace Sorting

/-- Insert `a` into `l`, passing over elements that must come strictly before
it; on ties the inserted element stays in front, so folding from the right
yields a stable sort.  This is the embedding of the database's
`ORDER BY key1 DESC, key2 DESC` (any stable total-preorder sort). -/
def insertSorted {α : Type} (le : α → α → Bool) (a : α) : List α → List α
  | [] => [a]
  | b :: rest =>
      if le b a && !(le a b) then b :: insertSorted le a rest else a :: b :: rest

/-- Stable sort by the boolean total preorder `le`. -/
def sortByKey {α : Type} (le : α → α → Bool) (l : List α) : List α :=
  l.foldr (insertSorted le) []

theorem mem_insertSorted {α : Type} (le : α → α → Bool) (a x : α) (l : List α) :
    x ∈ insertSorted le a l ↔ x = a ∨ x ∈ l := by
  induction l with
  | nil => simp [insertSorted]
  | cons b rest ih =>
      cases h : (le b a && !(le a b)) with
      | true =>
          simp only [insertSorted, h, if_true, List.mem_cons, ih]
          tauto
      | false =>
          simp only [insertSorted, h, Bool.false_eq_true, if_false, List.mem_cons]

theorem insertSorted_perm {α : Type} (le : α → α → Bool) (a : α) (l : List α) :
    List.Perm (insertSorted le a l) (a :: l) := by
  induction l with
  | nil => simp [insertSorted]
  | cons b rest ih =>
      cases h : (le b a && !(le a b)) with
      | true =>
          simp only [insertSorted, h, if_true]
          exact (List.Perm.cons b ih).trans (List.Perm.swap a b rest)
      | false =>
          simp [insertSorted, h]

theorem sortByKey_perm {α : Type} (le : α → α → Bool) (l : List α) :
    List.Perm (sortByKey le l) l := by
  induction l with
  | nil => simp [sortByKey]
  | cons a rest ih =>
      exact (insertSorted_perm le a (sortByKey le rest)).trans (List.Perm.cons a ih)

theorem pairwise_insertSorted {α : Type} (le : α → α → Bool)
    (htrans : ∀ a b c, le a b = true → le b c = true → le a c = true)
    (htot : ∀ a b, (le a b || le b a) = true) (a : α) (l : List α)
    (h : List.Pairwise (fun x y => le x y = true) l) :
    List.Pairwise (fun x y => le x y = true) (insertSorted le a l) := by
  induction l with
  | nil => simp [insertSorted]
  | cons b rest ih =>
      rcases List.pairwise_cons.mp h with ⟨hb, hrest⟩
      cases hc : (le b a && !(le a b)) with
      | true =>
          simp only [insertSorted, hc, if_true]
          refine List.pairwise_cons.mpr ⟨?_, ih hrest⟩
          intro x hx
          rcases (mem_insertSorted le a x rest).mp hx with hxa | hxr
          · subst hxa
            exact ((Bool.and_eq_true _ _).mp hc).1
          · exact hb x hxr
      | false =>
          simp only [insertSorted, hc, Bool.false_eq_true, if_false]
          have hab : le a b = true := by
            by_cases h2 : le a b = true
            · exact h2
            · have h2' : le a b = false := Bool.eq_false_iff.mpr h2
              have hba : le b a = true := by
                have ht := htot a b
                simp [h2'] at ht
                exact ht
              simp [hba, h2'] at hc
          refine List.pairwise_cons.mpr ⟨?_, h⟩
          intro x hx
          rcases List.mem_cons.mp hx with hxb | hxr
          · subst hxb; exact hab
          · exact htrans a b x hab (hb x hxr)

theorem sortByKey_sorted {α : Type} (le : α → α → Bool)
    (htrans : ∀ a b c, le a b = true → le b c = true → le a c = true)
    (htot : ∀ a b, (le a b || le b a) = true) (l : List α) :
    List.Pairwise (fun x y => le x y = true) (sortByKey le l) := by
  induction l with
  | nil => simp [sortByKey]
  | cons a rest ih => exact pairwise_insertSorted le htrans htot a (sortByKey le rest) ih

end Sorting

namespace CacheMgr

/-- State of `TTLCache` (src/cache_manager.py, lines 56-94).  `_store` is a
Python dict mapping keys to `(insertion timestamp, value)`; embedded as an
association list with dict insertion order.  Timestamps are `time.time()`
instants, embedded as naturals. -/
structure TTLCacheState (α : Type) where
  ttl : Nat
  max_items : Nat
  store : List (String × Nat × α)
  deriving Repr, DecidableEq

/-- Fresh cache (`TTLCache.__init__`). -/
def TTLCacheState.empty (α : Type) (ttl max_items : Nat) : TTLCacheState α :=
  { ttl := ttl, max_items := max_items, store := [] }

/-- Python `min(self._store.items(), key=lambda kv: kv[1][0])` restricted to a
non-empty store: the first entry attaining the minimal insertion timestamp. -/
def oldestEntry {α : Type} (hd : String × Nat × α) (tl : List (String × Nat × α)) :
    String × Nat × α :=
  tl.foldl (fun best e => if e.2.1 < best.2.1 then e else best) hd

/-- Key of the oldest entry.  On an empty store Python's `min` raises
`ValueError`; that branch is only reachable when `max_items = 0`, and the
theorems below therefore assume `1 ≤ max_items`. -/
def oldestKey {α : Type} : List (String × Nat × α) → String
  | [] => ""
  | hd :: tl => (oldestEntry hd tl).1

/-- Embedding of `TTLCache.set` (lines 78-86): evict the oldest-timestamp
entry when the store is at or above capacity, then upsert the key. -/
def ttlSet {α : Type} (c : TTLCacheState α) (k : String) (v : α) (now : Nat) :
    TTLCacheState α :=
  let st := if c.max_items ≤ c.store.length then aerase c.store (oldestKey c.store)
            else c.store
  { c with store := aupsert st k (now, v) }

/-- Embedding of `TTLCache.get` (lines 65-76): absent or expired (strictly
older than `ttl`) keys read as `none`, and an expired entry is removed. -/
def ttlGet {α : Type} (c : TTLCacheState α) (k : String) (now : Nat) :
    Option α × TTLCacheState α :=
  match alookup c.store k with
  | none => (none, c)
  | some (ts, v) =>
      if now - ts > c.ttl then (none, { c with store := aerase c.store k })
      else (some v, c)

/-- Embedding of `TTLCache.invalidate` (lines 88-90). -/
def ttlInvalidate {α : Type} (c : TTLCacheState α) (k : String) : TTLCacheState α :=
  { c with store := aerase c.store k }

theorem oldestEntry_mem {α : Type} (hd : String × Nat × α) (tl : List (String × Nat × α)) :
    oldestEntry hd tl ∈ hd :: tl := by
  induction tl generalizing hd with
  | nil => simp [oldestEntry]
  | cons e rest ih =>
      simp only [oldestEntry, List.foldl_cons]
      by_cases h : e.2.1 < hd.2.1
      · have := ih e
        simp only [oldestEntry] at this
        simp [h]
        rcases List.mem_cons.mp this with h1 | h1
        · right; left; exact h1
        · right; right; exact h1
      · have := ih hd
        simp only [oldestEntry] at this
        simp [h]
        rcases List.mem_cons.mp this with h1 | h1
        · left; exact h1
        · right; right; exact h1

theorem oldestEntry_le {α : Type} (hd : String × Nat × α) (tl : List (String × Nat × α)) :
    ∀ e ∈ hd :: tl, (oldestEntry hd tl).2.1 ≤ e.2.1 := by
  induction tl generalizing hd with
  | nil => intro e he; simp at he; subst he; simp [oldestEntry]
  | cons x rest ih =>
      intro e he
      simp only [oldestEntry, List.foldl_cons]
      by_cases h : x.2.1 < hd.2.1
      · have key := ih x
        simp only [oldestEntry] at key
        rcases List.mem_cons.mp he with h1 | h1
        · have hx := key x (List.mem_cons_self x rest)
          rw [h1]
          simp [h]
          omega
        · simp [h]; exact key e h1
      · have key := ih hd
        simp only [oldestEntry] at key
        rcases List.mem_cons.mp he with h1 | h1
        · rw [h1]; simp [h]; exact key hd (List.mem_cons_self hd rest)
        · rcases List.mem_cons.mp h1 with h2 | h2
          · have hhd := key hd (List.mem_cons_self hd rest)
            rw [h2]; simp [h]
            omega
          · simp [h]; exact key e (List.mem_cons_of_mem hd h2)

theorem length_aupsert_le {β : Type} (l : List (String × β)) (k : String) (v : β) :
    (aupsert l k v).length ≤ l.length + 1 := by
  induction l with
  | nil => simp [aupsert]
  | cons hd tl ih =>
      by_cases h : hd.1 = k
      · simp [aupsert, h]
      · simp only [aupsert, h, if_neg, not_false_iff, List.length_cons]
        omega

theorem length_aerase_of_mem {β : Type} (l : List (String × β)) (e : String × β)
    (he : e ∈ l) : (aerase l e.1).length < l.length := by
  induction l with
  | nil => simp at he
  | cons hd tl ih =>
      by_cases h : hd.1 = e.1
      · simp only [aerase]
        rw [List.filter_cons]
        have hcond : (decide (hd.1 ≠ e.1)) = false := by simp [h]
        rw [hcond]
        have hle : (List.filter (fun kv => decide (kv.1 ≠ e.1)) tl).length ≤ tl.length :=
          List.length_filter_le _ tl
        simp only [Bool.false_eq_true, if_false, List.length_cons]
        omega
      · have h1 : e ∈ tl := by
          rcases List.mem_cons.mp he with h2 | h2
          · exact absurd (by rw [h2]) h
          · exact h2
        have ihh := ih h1
        simp only [aerase] at ihh ⊢
        rw [List.filter_cons]
        have hcond : (decide (hd.1 ≠ e.1)) = true := by simp [h]
        rw [hcond]
        simp only [if_true, List.length_cons]
        omega

/-- One `set` keeps the store within capacity (the step of the capacity
invariant). -/
theorem ttlSet_length_le {α : Type} (c : TTLCacheState α) (k : String) (v : α)
    (now : Nat) (hcap : 1 ≤ c.max_items) (hlen : c.store.length ≤ c.max_items) :
    (ttlSet c k v now).store.length ≤ c.max_items := by
  unfold ttlSet
  by_cases h : c.max_items ≤ c.store.length
  · simp only [h, if_true]
    match hs : c.store with
    | [] =>
        rw [hs] at h
        simp at h
        omega
    | hd :: tl =>
        have hmem : oldestEntry hd tl ∈ hd :: tl := oldestEntry_mem hd tl
        have hlt : (aerase (hd :: tl) (oldestEntry hd tl).1).length < (hd :: tl).length :=
          length_aerase_of_mem (hd :: tl) (oldestEntry hd tl) hmem
        have := length_aupsert_le (aerase (hd :: tl) (oldestKey (hd :: tl))) k (now, v)
        simp only [oldestKey] at *
        rw [hs] at hlen
        omega
  · simp only [h, if_false]
    have := length_aupsert_le c.store k (now, v)
    omega

/-- Row of the `books` table (src/db_models.py, `Book`).  The `type` column is
named `typ` because `type` is reserved in Lean. -/
structure BookRow where
  id : String
  public_id : Option String
  name : String
  author : Option String
  typ : Option String
  status : Option String
  update : Option String
  last_chapter_title : Option String
  last_chapter_url : Option String
  last_chapter_num : Option Int
  last_scraped_at : Int
  source_url : Option String
  deriving Repr, DecidableEq

/-- Fields of the Python `info` dict passed to `store_book_info`;
`none` embeds an absent key, `some v` a present key with value `v`
(which may be the empty string). -/
structure InfoDict where
  name : Option String
  author : Option String
  typ : Option String
  status : Option String
  update : Option String
  last_chapter_title : Option String
  last_chapter_url : Option String
  last_chapter_number : Option Int
  source_url : Option String
  deriving Repr, DecidableEq

/-- Python `info.get(key, old)` for a nullable column: a present key (even with
an empty-string value) wins, an absent key keeps the stored value. -/
def pyGet {γ : Type} (supplied old : Option γ) : Option γ :=
  match supplied with
  | some v => some v
  | none => old

/-- Python falsy test on a nullable string column (`if not book.public_id`). -/
def strFalsy (s : Option String) : Bool :=
  match s with
  | none => true
  | some v => v = ""

/-- Embedding of the update branch of `CacheManager.store_book_info`
(src/cache_manager.py, lines 160-173): each field is
`info.get(key, current value)`, the refresh timestamp is always overwritten,
and a falsy `public_id` is lazily assigned a fresh random id. -/
def updateBook (b : BookRow) (info : InfoDict) (now : Int) (freshId : String) : BookRow :=
  { b with
    name := info.name.getD b.name
    author := pyGet info.author b.author
    typ := pyGet info.typ b.typ
    status := pyGet info.status b.status
    update := pyGet info.update b.update
    last_chapter_title := pyGet info.last_chapter_title b.last_chapter_title
    last_chapter_url := pyGet info.last_chapter_url b.last_chapter_url
    last_chapter_num := pyGet info.last_chapter_number b.last_chapter_num
    last_scraped_at := now
    public_id := if strFalsy b.public_id then some freshId else b.public_id }

/-- Embedding of the create branch of `store_book_info` (lines 175-189). -/
def createBook (book_id : String) (info : InfoDict) (now : Int) (freshId : String) : BookRow :=
  { id := book_id
    public_id := some freshId
    name := info.name.getD ""
    author := info.author
    typ := info.typ
    status := info.status
    update := info.update
    last_chapter_title := info.last_chapter_title
    last_chapter_url := info.last_chapter_url
    last_chapter_num := info.last_chapter_number
    last_scraped_at := now
    source_url := info.source_url }

/-- Replace the first row matching `book_id` (SQLAlchemy `.first()` + in-place
mutation + commit). -/
def replaceFirstBook (db : List BookRow) (book_id : String) (f : BookRow → BookRow) :
    List BookRow :=
  match db with
  | [] => []
  | b :: rest =>
      if b.id = book_id then f b :: rest else b :: replaceFirstBook rest book_id f

/-- Embedding of `CacheManager.store_book_info` (lines 153-207) on the
persistent tier: update the existing row, else insert a new one. -/
def storeBookInfo (db : List BookRow) (book_id : String) (info : InfoDict)
    (now : Int) (freshId : String) : List BookRow :=
  if db.any (fun b => b.id = book_id) then
    replaceFirstBook db book_id (fun b => updateBook b info now freshId)
  else
    db ++ [createBook book_id info now freshId]

/-- Row of the `chapters` table (src/db_models.py, `Chapter`), restricted to
the columns `store_chapter_refs` touches or must preserve. -/
structure ChapterRow where
  book_id : String
  chapter_num : Int
  public_id : Option String
  title : Option String
  url : String
  text : Option String
  deriving Repr, DecidableEq

/-- One element of the `chapters` argument of `store_chapter_refs`
(a Python dict with optional `number`, `title`, `url` keys). -/
structure RefData where
  number : Option Int
  title : Option String
  url : Option String
  deriving Repr, DecidableEq

/-- SQLAlchemy `query(Chapter).filter(book_id, chapter_num).first()`. -/
def chLookup (db : List ChapterRow) (b : String) (n : Int) : Option ChapterRow :=
  db.find? (fun c => c.book_id = b && c.chapter_num = n)

/-- Replace the first chapter row matching `(b, n)`. -/
def chReplaceFirst (db : List ChapterRow) (b : String) (n : Int)
    (f : ChapterRow → ChapterRow) : List ChapterRow :=
  match db with
  | [] => []
  | c :: rest =>
      if c.book_id = b && c.chapter_num = n then f c :: rest
      else c :: chReplaceFirst rest b n f

/-- Metadata-only update of an existing chapter row (src/cache_manager.py,
lines 356-363): title and url from the reference dict, lazy public id, and the
`text` column deliberately untouched. -/
def updateChapterRef (c : ChapterRow) (r : RefData) (freshId : String) : ChapterRow :=
  { c with
    title := pyGet r.title c.title
    url := r.url.getD c.url
    public_id := if strFalsy c.public_id then some freshId else c.public_id }

/-- Freshly created chapter reference row (lines 366-376): no text yet. -/
def newChapterRef (b : String) (n : Int) (r : RefData) (freshId : String) : ChapterRow :=
  { book_id := b
    chapter_num := n
    public_id := some freshId
    title := r.title
    url := r.url.getD ""
    text := none }

/-- Loop of `CacheManager.store_chapter_refs` (lines 342-399).  `fresh i` is
the i-th string produced by the `uuid4`-based `generate_public_id`; the
batch-commit bookkeeping has no effect on the final table contents in the
absence of concurrent writers and is elided. -/
def storeChapterRefsGo (b : String) (fresh : Nat → String) :
    List RefData → List ChapterRow → Nat → List ChapterRow
  | [], db, _ => db
  | r :: rest, db, i =>
      match r.number with
      | none => storeChapterRefsGo b fresh rest db i
      | some n =>
          match chLookup db b n with
          | some c =>
              let db' := chReplaceFirst db b n (fun c0 => updateChapterRef c0 r (fresh i))
              storeChapterRefsGo b fresh rest db' (if strFalsy c.public_id then i + 1 else i)
          | none =>
              storeChapterRefsGo b fresh rest (db ++ [newChapterRef b n r (fresh i)]) (i + 1)

/-- Embedding of `CacheManager.store_chapter_refs` (lines 332-409). -/
def storeChapterRefs (db : List ChapterRow) (b : String) (chapters : List RefData)
    (fresh : Nat → String) : List ChapterRow :=
  storeChapterRefsGo b fresh chapters db 0

/-- What the reference upsert must leave intact on a pre-existing row: the
content body, the identifying keys, and a non-missing public identifier. -/
def refsPreserve (r r' : ChapterRow) : Prop :=
  r'.text = r.text ∧ r'.book_id = r.book_id ∧ r'.chapter_num = r.chapter_num ∧
  (strFalsy r.public_id = false → r'.public_id = r.public_id)

end CacheMgr

namespace RateLim

/-- Split a character list on `'.'` (the behaviour of `"...".split(".")`). -/
def splitOnDot : List Char → List (List Char)
  | [] => [[]]
  | c :: rest =>
      match splitOnDot rest with
      | [] => [[]]
      | cur :: parts => if c = '.' then [] :: cur :: parts else (c :: cur) :: parts

/-- Accumulate a decimal numeral; any non-digit character fails. -/
def parseDigitsAux : List Char → Nat → Option Nat
  | [], acc => some acc
  | c :: rest, acc =>
      if c.isDigit then parseDigitsAux rest (acc * 10 + (c.toNat - 48)) else none

/-- Parse one dotted-quad octet the way `ipaddress` does: decimal digits only,
value at most 255, and no leading zero (Python ≥ 3.9 rejects them). -/
def parseOctet : List Char → Option Nat
  | [] => none
  | c :: rest =>
      if c = '0' && !rest.isEmpty then none
      else
        match parseDigitsAux (c :: rest) 0 with
        | some n => if n ≤ 255 then some n else none
        | none => none

/-- Parse an IPv4 address into its 32-bit numeric value.  The source also
accepts IPv6 via `ipaddress.ip_address`; the IPv4 fragment suffices for the
claims, which only depend on whitelist membership as a whole. -/
def parseIPv4 (s : String) : Option Nat :=
  match splitOnDot s.toList with
  | [a, b, c, d] => do
      let a' ← parseOctet a
      let b' ← parseOctet b
      let c' ← parseOctet c
      let d' ← parseOctet d
      pure (((a' * 256 + b') * 256 + c') * 256 + d')
  | _ => none

/-- Membership of a 32-bit address in a CIDR network given as
(network address, prefix length): the first `plen` bits agree. -/
def inNetwork (ip : Nat) (net : Nat × Nat) : Bool :=
  ip / 2 ^ (32 - net.2) = net.1 / 2 ^ (32 - net.2)

/-- State of `RateLimiter` (src/rate_limiter.py): per-client request
timestamps plus the parsed whitelist. -/
structure RLState where
  request_history : List (String × List Int)
  whitelist_ips : List String
  whitelist_networks : List (Nat × Nat)
  deriving Repr, DecidableEq

/-- Embedding of `RateLimiter._is_whitelisted` (lines 59-75): exact string
match first, then CIDR ranges; an unparsable address is tolerated as
not whitelisted. -/
def isWhitelisted (st : RLState) (client_ip : String) : Bool :=
  if client_ip ∈ st.whitelist_ips then true
  else
    match parseIPv4 client_ip with
    | some ip => st.whitelist_networks.any (fun net => inNetwork ip net)
    | none => false

/-- `WINDOW_SECONDS`. -/
def windowSeconds : Int := 60

/-- Embedding of `RateLimiter._clean_old_requests` (lines 77-90): keep
timestamps strictly newer than `now - 60` and delete the client's entry
entirely when nothing remains. -/
def cleanOldRequests (hist : List (String × List Int)) (client : String) (now : Int) :
    List (String × List Int) :=
  match alookup hist client with
  | none => hist
  | some l =>
      let kept := l.filter (fun ts => now - windowSeconds < ts)
      if kept.isEmpty then aerase hist client else aupsert hist client kept

/-- `THRESHOLDS` (lines 23-29): `none` stands for `float('inf')`. -/
def THRESHOLDS : List (Option Nat × Nat) :=
  [(some 50, 0), (some 100, 1), (some 200, 10), (some 500, 60), (none, 300)]

/-- The `for threshold, delay in self.THRESHOLDS` lookup loop of `get_delay`,
with the unreachable fallback `return self.THRESHOLDS[-1][1]`. -/
def thresholdDelay : List (Option Nat × Nat) → Nat → Nat
  | [], _ => 300
  | (bound, delay) :: rest, c =>
      match bound with
      | some b => if c < b then delay else thresholdDelay rest c
      | none => delay

/-- Embedding of `RateLimiter.get_delay` (lines 92-116): whitelist bypass,
prune, count, threshold table. -/
def getDelay (st : RLState) (client : String) (now : Int) : Nat × RLState :=
  if isWhitelisted st client then (0, st)
  else
    let hist := cleanOldRequests st.request_history client now
    let c := ((alookup hist client).getD []).length
    (thresholdDelay THRESHOLDS c, { st with request_history := hist })

/-- The in-window suffix of a client's recorded timestamps: what
`_clean_old_requests` keeps (strictly newer than `now - 60`). -/
def keptOf (hist : List (String × List Int)) (client : String) (now : Int) : List Int :=
  ((alookup hist client).getD []).filter (fun ts => now - windowSeconds < ts)

/-- Embedding of `RateLimiter.record_request` (lines 118-129). -/
def recordRequest (st : RLState) (client : String) (now : Int) : RLState :=
  let appended :=
    aupsert st.request_history client ((alookup st.request_history client).getD [] ++ [now])
  { st with request_history := cleanOldRequests appended client now }

end RateLim

namespace Midnight

open BackgroundJobs

/-- Row of the `pending_sync_queue` table (src/db_models.py,
`PendingSyncQueue`). -/
structure PendingEntry where
  book_id : String
  added_at : Int
  accessed_at : Int
  access_count : Int
  priority : Int
  last_sync_attempt : Option Int
  sync_status : String
  deriving Repr, DecidableEq

/-- SQLAlchemy `filter_by(book_id=...).first()` over the queue table. -/
def qFind (q : List PendingEntry) (id : String) : Option PendingEntry :=
  q.find? (fun e => e.book_id = id)

/-- Replace the first queue row for `id` (in-place mutation + commit). -/
def qReplace (q : List PendingEntry) (id : String) (f : PendingEntry → PendingEntry) :
    List PendingEntry :=
  match q with
  | [] => []
  | e :: rest => if e.book_id = id then f e :: rest else e :: qReplace rest id f

/-- Embedding of `MidnightSyncScheduler.track_book_access`
(src/midnight_sync.py, lines 71-113): bump an existing row (resetting a
completed/failed status to pending), else insert a fresh row — note the fresh
row takes the column default `priority = 0`. -/
def trackBookAccess (q : List PendingEntry) (book_id : String) (now : Int) :
    List PendingEntry :=
  match qFind q book_id with
  | some _ =>
      qReplace q book_id (fun e =>
        let e1 := { e with accessed_at := now, access_count := e.access_count + 1 }
        if e1.sync_status = "completed" || e1.sync_status = "failed" then
          { e1 with sync_status := "pending", last_sync_attempt := none }
        else e1)
  | none =>
      q ++ [{ book_id := book_id, added_at := now, accessed_at := now,
              access_count := 1, priority := 0, last_sync_attempt := none,
              sync_status := "pending" }]

/-- SQL filter `Book.status != "已完成"`: three-valued — a NULL status row is
excluded by the inequality. -/
def unfinishedBook (b : CacheMgr.BookRow) : Bool :=
  match b.status with
  | some s => s ≠ "已完成"
  | none => false

/-- Step-1 body of `_run_midnight_sync` (lines 168-192) for one unfinished
book: reset an existing completed/failed row to pending with priority 1, or
insert a fresh pending row with priority 1. -/
def upsertUnfinishedEntry (q : List PendingEntry) (id : String) (now : Int) :
    List PendingEntry :=
  match qFind q id with
  | some _ =>
      qReplace q id (fun e =>
        if e.sync_status = "completed" || e.sync_status = "failed" then
          { e with sync_status := "pending", accessed_at := now,
                   access_count := e.access_count + 1, priority := 1 }
        else e)
  | none =>
      q ++ [{ book_id := id, added_at := now, accessed_at := now,
              access_count := 1, priority := 1, last_sync_attempt := none,
              sync_status := "pending" }]

/-- Step 1 of `_run_midnight_sync` (lines 156-195): every unfinished book is
upserted into the pending queue. -/
def midnightStep1 (books : List CacheMgr.BookRow) (q : List PendingEntry) (now : Int) :
    List PendingEntry :=
  (books.filter unfinishedBook).foldl (fun acc b => upsertUnfinishedEntry acc b.id now) q

/-- Comparison realising `ORDER BY priority DESC, access_count DESC`:
`a` may come before `b`. -/
def pendingLe (a b : PendingEntry) : Bool :=
  decide (b.priority < a.priority) ||
    (decide (a.priority = b.priority) && decide (b.access_count ≤ a.access_count))

/-- The ordered pending snapshot processed by step 2 (lines 200-205). -/
def midnightOrder (books : List CacheMgr.BookRow) (q : List PendingEntry) (now : Int) :
    List PendingEntry :=
  Sorting.sortByKey pendingLe
    ((midnightStep1 books q now).filter (fun e => e.sync_status = "pending"))

/-- `pending.sync_status = "syncing"; pending.last_sync_attempt = utcnow()`
(lines 226-228). -/
def markSyncing (e : PendingEntry) (now : Int) : PendingEntry :=
  { e with sync_status := "syncing", last_sync_attempt := some now }

/-- Per-entry body of the step-2 loop (lines 219-251): mark syncing, enqueue
into the job manager, and set the final status — the source writes
`"completed"` in both the `success` and the not-`success` branch. -/
def processPendingEntry (jm : JMState) (e : PendingEntry) (now : Int) :
    PendingEntry × JMState :=
  let e1 := markSyncing e now
  let res := enqueueSync jm e.book_id e.priority now
  if res.1 then ({ e1 with sync_status := "completed" }, res.2)
  else ({ e1 with sync_status := "completed" }, res.2)

/-- Embedding of `_run_midnight_sync` (lines 147-263): step 1, then the
ordered step-2 loop threading the queue table and the job-manager state. -/
def runMidnightSync (books : List CacheMgr.BookRow) (q : List PendingEntry)
    (jm : JMState) (now : Int) : List PendingEntry × JMState :=
  let q1 := midnightStep1 books q now
  (midnightOrder books q now).foldl
    (fun acc e =>
      let pe := processPendingEntry acc.2 e now
      (qReplace acc.1 e.book_id (fun _ => pe.1), pe.2))
    (q1, jm)

end Midnight

namespace Examples

open BackgroundJobs CacheMgr Midnight

/-- Manager state with a cooldown-fresh completion and a stale failure record
for item `"b"` (completed at instant 0, probed at instant 100 < 300s later). -/
def jmCooldown : JMState :=
  { job_queue := [], active_jobs := [],
    completed_jobs := [("b", 0)], failed_jobs := [("b", (0, "err"))] }

/-- Manager state in which item `"bk"` is currently active. -/
def jmActive : JMState :=
  { job_queue := [], active_jobs := ["bk"], completed_jobs := [], failed_jobs := [] }

/-- Metadata-fetch collaborator that always raises. -/
def metaFailCb : Option (String → Except String Unit) :=
  some (fun _ => .error "meta boom")

/-- Chapter-fetch collaborator that succeeds. -/
def chapOkCb : Option (String → Except String Unit) :=
  some (fun _ => .ok ())

/-- Chapter-fetch collaborator that always raises. -/
def chapFailCb : Option (String → Except String Unit) :=
  some (fun _ => .error "chap boom")

/-- A stored book with a non-empty name, used against an update that supplies
the name as the empty string. -/
def bookX : BookRow :=
  { id := "B1", public_id := some "p", name := "X", author := some "au",
    typ := none, status := none, update := none, last_chapter_title := none,
    last_chapter_url := none, last_chapter_num := none, last_scraped_at := 0,
    source_url := none }

/-- Update dict supplying `name` present but empty, all other keys absent. -/
def infoEmptyName : InfoDict :=
  { name := some "", author := none, typ := none, status := none, update := none,
    last_chapter_title := none, last_chapter_url := none,
    last_chapter_number := none, source_url := none }

/-- A chapter row that already has stored content. -/
def chWithText : ChapterRow :=
  { book_id := "B", chapter_num := 1, public_id := some "cp", title := some "t1",
    url := "u1", text := some "body" }

/-- A reference-only update for the same chapter (no content key at all). -/
def refForCh : RefData := { number := some 1, title := some "t2", url := some "u2" }

/-- Constant supply of fresh public ids for the examples. -/
def freshIds (i : Nat) : String := "pid" ++ toString i

/-- Pending-queue row for `"bk"`, never attempted. -/
def pendingBk : PendingEntry :=
  { book_id := "bk", added_at := 0, accessed_at := 0, access_count := 3,
    priority := 0, last_sync_attempt := none, sync_status := "pending" }

/-- Unfinished book `"A"` of the daily-orchestrator scenario. -/
def bookA : BookRow :=
  { id := "A", public_id := none, name := "a", author := none, typ := none,
    status := some "進行中", update := none, last_chapter_title := none,
    last_chapter_url := none, last_chapter_num := none, last_scraped_at := 0,
    source_url := none }

/-- Unfinished book `"B"`. -/
def bookB : BookRow := { bookA with id := "B" }

/-- Unfinished book `"C"` (never accessed by a user). -/
def bookC : BookRow := { bookA with id := "C" }

/-- Finished book `"D"`. -/
def bookD : BookRow := { bookA with id := "D", status := some "已完成" }

/-- The scenario's book table: three unfinished items and one finished one. -/
def scenarioBooks : List BookRow := [bookA, bookB, bookC, bookD]

/-- Pending queue built from an empty table by tracking 5 accesses of `"A"`,
1 access of `"B"` and none of `"C"` — access counts 5, 1, 0. -/
def scenarioQueue : List PendingEntry :=
  trackBookAccess
    (trackBookAccess
      (trackBookAccess
        (trackBookAccess
          (trackBookAccess (trackBookAccess [] "A" 1) "A" 2) "A" 3) "A" 4) "A" 5)
    "B" 6

/-- A memory tier at capacity 2 holding two entries, the older one under
key `"a"`. -/
def cFull : TTLCacheState Nat :=
  { ttl := 10, max_items := 2, store := [("a", 3, 0), ("b", 4, 7)] }

/-- Rate-limiter state whitelisting `10.0.0.9` exactly and `192.168.0.0/16` as
a network, with a long recorded history for the whitelisted client. -/
def rlWhitelisted : RateLim.RLState :=
  { request_history := [("192.168.1.7", (List.range 1000).map (fun i => (i : Int)))],
    whitelist_ips := ["10.0.0.9"],
    whitelist_networks := [(((192 * 256 + 168) * 256 + 0) * 256 + 0, 16)] }

/-- Rate-limiter state with no whitelist and 120 in-window requests recorded
for client `"c"` at instant 1000. -/
def rlBusy : RateLim.RLState :=
  { request_history := [("c", (List.range 120).map (fun i => (950 : Int) + i))],
    whitelist_ips := [], whitelist_networks := [] }

end Examples

open BackgroundJobs CacheMgr RateLim Midnight

/-- Acceptance case of `enqueue_sync`: not active and no cooldown-fresh
completion means the job is appended and `true` returned. -/
theorem enqueueSync_accept (st : JMState) (id : String) (p now : Int)
    (ha : id ∉ st.active_jobs)
    (hcool : ∀ t, alookup st.completed_jobs id = some t → cooldownSeconds ≤ now - t) :
    enqueueSync st id p now =
      (true, { st with job_queue := st.job_queue ++ [⟨id, p, now⟩] }) := by
  unfold enqueueSync
  rw [if_neg ha]
  cases hlk : alookup st.completed_jobs id with
  | none => simp
  | some t =>
      have hge := hcool t hlk
      have hne : ¬ (now - t < cooldownSeconds) := by omega
      simp [hne]

/-- C1 (amended): within the cooldown window after a completed job,
`enqueue_sync` returns false without error; `force_resync` refuses only when
the item is active, and on success it erases the stale completed record and
appends the job while leaving the failed map (and everything else) unchanged. -/
theorem C1_cooldown_force (st : JMState) (id : String) (p pr : Int) (now t : Int)
    (hc : alookup st.completed_jobs id = some t) (hw : now - t < cooldownSeconds) :
    enqueueSync st id p now = (false, st) ∧
    (id ∈ st.active_jobs → forceResync st id pr now = (false, st)) ∧
    (id ∉ st.active_jobs →
      forceResync st id pr now =
        (true, { st with completed_jobs := aerase st.completed_jobs id,
                         job_queue := st.job_queue ++ [⟨id, pr, now⟩] })) := by
  refine ⟨?_, ?_, ?_⟩
  · unfold enqueueSync
    by_cases ha : id ∈ st.active_jobs
    · simp [ha]
    · simp [ha, hc, hw]
  · intro ha; simp [forceResync, ha]
  · intro ha; simp [forceResync, ha]

/-- C1 counterexample: in the cooldown window, `force_resync "b"` returns true
but the stale failed-job record for `"b"` is NOT cleared, contrary to the
claim that the force variant clears completed/failed memory. -/
theorem C1_counterexample :
    (forceResync Examples.jmCooldown "b" 10 100).1 = true ∧
    alookup (forceResync Examples.jmCooldown "b" 10 100).2.failed_jobs "b" =
      some (0, "err") := by
  exact ⟨rfl, rfl⟩

/-- C1 witness: the amended theorem evaluated on the concrete cooldown state. -/
theorem C1_witness :
    enqueueSync Examples.jmCooldown "b" 1 100 = (false, Examples.jmCooldown) ∧
    forceResync Examples.jmCooldown "b" 10 100 =
      (true, { Examples.jmCooldown with
               completed_jobs := aerase Examples.jmCooldown.completed_jobs "b",
               job_queue := Examples.jmCooldown.job_queue ++ [⟨"b", 10, 100⟩] }) := by
  have h := C1_cooldown_force Examples.jmCooldown "b" 1 10 100 0 (by rfl) (by decide)
  exact ⟨h.1, h.2.2 (by decide)⟩

/-- C3 (amended): the per-entry loop body first marks the entry syncing with
the attempt timestamp, calls `enqueue_sync`, and then sets the status to
"completed" regardless of the boolean that call returned ("failed" is written
only by the exception handler, which has no counterpart in this pure model). -/
theorem C3_mark_completed (jm : JMState) (e : PendingEntry) (now : Int) :
    processPendingEntry jm e now =
      ({ markSyncing e now with sync_status := "completed" },
       (enqueueSync jm e.book_id e.priority now).2) := by
  simp [processPendingEntry]

/-- C3 counterexample: with book `"bk"` currently active, `enqueue_sync`
returns false, yet the daily loop records the pending entry as "completed"
rather than leaving it or marking it "failed" as the claim states. -/
theorem C3_counterexample :
    (enqueueSync Examples.jmActive "bk" 0 50).1 = false ∧
    (processPendingEntry Examples.jmActive Examples.pendingBk 50).1.sync_status =
      "completed" := by
  exact ⟨rfl, rfl⟩

/-- Discarding the id the worker just added gives the same active set as
discarding it from the original state: the cleanup removes it exactly once. -/
theorem discard_add (l : List String) (id : String) :
    discardActive (addActive l id) id = discardActive l id := by
  unfold addActive discardActive
  by_cases h : id ∈ l
  · simp [h]
  · simp [h, List.filter_append]

/-- C4: per-job execution — the metadata fetch never influences the job's
outcome (best-effort), a chapter-fetch error is recorded in the failure map
with timestamp and message, success records the completion timestamp and
erases any prior failure record, and in every case the item ends up removed
from the active set. -/
theorem C4_worker_cleanup (st : JMState) (job : SyncJob)
    (icb ccb : Option (String → Except String Unit)) (now : Int) :
    (runJob st job icb ccb now).active_jobs = discardActive st.active_jobs job.book_id ∧
    processSyncJob job.book_id icb ccb = processSyncJob job.book_id none ccb ∧
    (processSyncJob job.book_id icb ccb = .ok () →
      alookup (runJob st job icb ccb now).completed_jobs job.book_id = some now ∧
      alookup (runJob st job icb ccb now).failed_jobs job.book_id = none) ∧
    (∀ e, processSyncJob job.book_id icb ccb = .error e →
      alookup (runJob st job icb ccb now).failed_jobs job.book_id = some (now, e) ∧
      (runJob st job icb ccb now).completed_jobs = st.completed_jobs) := by
  refine ⟨?_, ?_, ?_, ?_⟩
  · unfold runJob
    cases hres : processSyncJob job.book_id icb ccb with
    | ok u => cases u; simp [discard_add]
    | error e => simp [discard_add]
  · rfl
  · intro hok
    simp [runJob, hok, alookup_aupsert_self, alookup_aerase_self]
  · intro e herr
    simp [runJob, herr, alookup_aupsert_self]

/-- C4 witness: a failing metadata callback together with a succeeding chapter
callback still completes the job for `"b"` at instant 7 with no failure
record. -/
theorem C4_witness :
    alookup (runJob JMState.init ⟨"b", 0, 0⟩ Examples.metaFailCb
      Examples.chapOkCb 7).completed_jobs "b" = some 7 ∧
    alookup (runJob JMState.init ⟨"b", 0, 0⟩ Examples.metaFailCb
      Examples.chapOkCb 7).failed_jobs "b" = none := by
  exact (C4_worker_cleanup JMState.init ⟨"b", 0, 0⟩ Examples.metaFailCb
    Examples.chapOkCb 7).2.2.1 rfl

/-- C10: when an item is neither active nor within the completion cooldown,
`enqueue_sync` does not look at the waiting queue: two successive calls both
return true and leave two jobs for the same id in the queue. -/
theorem C10_requeue (st : JMState) (id : String) (p p2 now now2 : Int)
    (ha : id ∉ st.active_jobs)
    (hcool : ∀ t, alookup st.completed_jobs id = some t → cooldownSeconds ≤ now - t)
    (hcool2 : ∀ t, alookup st.completed_jobs id = some t → cooldownSeconds ≤ now2 - t) :
    (enqueueSync st id p now).1 = true ∧
    (enqueueSync (enqueueSync st id p now).2 id p2 now2).1 = true ∧
    (enqueueSync (enqueueSync st id p now).2 id p2 now2).2.job_queue =
      st.job_queue ++ [⟨id, p, now⟩, ⟨id, p2, now2⟩] := by
  have h1 := enqueueSync_accept st id p now ha hcool
  have h2 := enqueueSync_accept { st with job_queue := st.job_queue ++ [⟨id, p, now⟩] }
    id p2 now2 ha hcool2
  rw [h1]
  refine ⟨rfl, ?_, ?_⟩
  · rw [h2]
  · rw [h2]
    simp

/-- C10 witness: on a fresh manager, enqueueing `"x"` twice at instants 0 and
1 yields two accepted jobs for `"x"`. -/
theorem C10_witness :
    (enqueueSync JMState.init "x" 1 0).1 = true ∧
    (enqueueSync (enqueueSync JMState.init "x" 1 0).2 "x" 2 1).1 = true ∧
    (enqueueSync (enqueueSync JMState.init "x" 1 0).2 "x" 2 1).2.job_queue =
      [⟨"x", 1, 0⟩, ⟨"x", 2, 1⟩] := by
  obtain ⟨a, b, c⟩ := C10_requeue JMState.init "x" 1 2 0 1 (by decide)
    (fun t ht => by simp [JMState.init, alookup] at ht)
    (fun t ht => by simp [JMState.init, alookup] at ht)
  refine ⟨a, b, ?_⟩
  rw [c]
  rfl

/-- C2 (amended): in `store_book_info`'s merge, a field ABSENT from the update
dict never changes the stored value, while any PRESENT field — including one
supplied as the empty string — overwrites it; the refresh timestamp is always
overwritten and the row id never changes. -/
theorem C2_backfill_merge (b : BookRow) (info : InfoDict) (now : Int) (fid : String) :
    (info.name = none → (updateBook b info now fid).name = b.name) ∧
    (∀ v, info.name = some v → (updateBook b info now fid).name = v) ∧
    (info.author = none → (updateBook b info now fid).author = b.author) ∧
    (∀ v, info.author = some v → (updateBook b info now fid).author = some v) ∧
    (info.typ = none → (updateBook b info now fid).typ = b.typ) ∧
    (∀ v, info.typ = some v → (updateBook b info now fid).typ = some v) ∧
    (info.status = none → (updateBook b info now fid).status = b.status) ∧
    (∀ v, info.status = some v → (updateBook b info now fid).status = some v) ∧
    (info.update = none → (updateBook b info now fid).update = b.update) ∧
    (∀ v, info.update = some v → (updateBook b info now fid).update = some v) ∧
    (info.last_chapter_title = none →
      (updateBook b info now fid).last_chapter_title = b.last_chapter_title) ∧
    (∀ v, info.last_chapter_title = some v →
      (updateBook b info now fid).last_chapter_title = some v) ∧
    (info.last_chapter_url = none →
      (updateBook b info now fid).last_chapter_url = b.last_chapter_url) ∧
    (∀ v, info.last_chapter_url = some v →
      (updateBook b info now fid).last_chapter_url = some v) ∧
    (info.last_chapter_number = none →
      (updateBook b info now fid).last_chapter_num = b.last_chapter_num) ∧
    (∀ n, info.last_chapter_number = some n →
      (updateBook b info now fid).last_chapter_num = some n) ∧
    (updateBook b info now fid).last_scraped_at = now ∧
    (updateBook b info now fid).id = b.id := by
  refine ⟨?_, ?_, ?_, ?_, ?_, ?_, ?_, ?_, ?_, ?_, ?_, ?_, ?_, ?_, ?_, ?_, ?_, ?_⟩
  all_goals intros
  all_goals simp [updateBook, pyGet, *]

/-- C2 counterexample: the stored item has the non-empty name `"X"`, the
update supplies `name` as the EMPTY string, and the store operation overwrites
the stored value with `""` — refuting "a field supplied as empty never changes
a previously stored non-empty value". -/
theorem C2_counterexample :
    Examples.bookX.name = "X" ∧ Examples.infoEmptyName.name = some "" ∧
    (updateBook Examples.bookX Examples.infoEmptyName 5 "f").name = "" := by
  exact ⟨rfl, rfl, rfl⟩

/-- C2 witness: the amended theorem evaluated on a concrete book and update —
the absent `author` key keeps the stored author, the present-but-empty `name`
key overwrites. -/
theorem C2_witness :
    (updateBook Examples.bookX Examples.infoEmptyName 5 "f").author =
      Examples.bookX.author ∧
    (updateBook Examples.bookX Examples.infoEmptyName 5 "f").name = "" := by
  have h := C2_backfill_merge Examples.bookX Examples.infoEmptyName 5 "f"
  exact ⟨h.2.2.1 rfl, h.2.1 "" rfl⟩

/-- C5: immediately after `set(k, v)` the memory tier returns `v` for `k`, and
once strictly more than the TTL has elapsed with no further set, `get(k)`
returns absent and removes the expired entry. -/
theorem C5_ttl_invariant {α : Type} (c : TTLCacheState α) (k : String) (v : α)
    (now later : Nat) (hexp : c.ttl < later - now) :
    ttlGet (ttlSet c k v now) k now = (some v, ttlSet c k v now) ∧
    (ttlGet (ttlSet c k v now) k later).1 = none ∧
    alookup (ttlGet (ttlSet c k v now) k later).2.store k = none := by
  have hlk : alookup (ttlSet c k v now).store k = some (now, v) :=
    alookup_aupsert_self _ k (now, v)
  have hexp2 : later - now > (ttlSet c k v now).ttl := hexp
  have hnotexp : ¬ (now - now > (ttlSet c k v now).ttl) := by
    show ¬ (now - now > c.ttl)
    omega
  refine ⟨?_, ?_, ?_⟩
  · simp only [ttlGet, hlk]
    rw [if_neg hnotexp]
  · simp only [ttlGet, hlk]
    rw [if_pos hexp2]
  · simp only [ttlGet, hlk]
    rw [if_pos hexp2]
    exact alookup_aerase_self _ k

/-- C5 witness: the TTL invariant evaluated at TTL 10, set at instant 0, read
back at instants 0 and 11. -/
theorem C5_witness :
    ttlGet (ttlSet (TTLCacheState.empty Nat 10 5) "k" 42 0) "k" 0 =
      (some 42, ttlSet (TTLCacheState.empty Nat 10 5) "k" 42 0) ∧
    (ttlGet (ttlSet (TTLCacheState.empty Nat 10 5) "k" 42 0) "k" 11).1 = none ∧
    alookup (ttlGet (ttlSet (TTLCacheState.empty Nat 10 5) "k" 42 0) "k" 11).2.store
      "k" = none := by
  exact C5_ttl_invariant (TTLCacheState.empty Nat 10 5) "k" 42 0 11 (by decide)

/-- Any sequence of sets starting within capacity stays within capacity. -/
theorem foldl_ttlSet_length {α : Type} (ops : List (String × α × Nat))
    (c : TTLCacheState α) (hcap : 1 ≤ c.max_items)
    (hlen : c.store.length ≤ c.max_items) :
    ((ops.foldl (fun acc op => ttlSet acc op.1 op.2.1 op.2.2) c).store.length ≤
      c.max_items) := by
  induction ops generalizing c with
  | nil => exact hlen
  | cons op rest ih =>
      exact ih (ttlSet c op.1 op.2.1 op.2.2) hcap
        (ttlSet_length_le c op.1 op.2.1 op.2.2 hcap hlen)

/-- C6: a memory tier with capacity N ≥ 1 never holds more than N entries
under any sequence of sets from empty; and when a set triggers eviction
(store at or above capacity), the evicted key is that of an entry resident at
that moment whose insertion timestamp is minimal among all resident entries. -/
theorem C6_capacity_eviction {α : Type} :
    (∀ (ttl N : Nat) (ops : List (String × α × Nat)), 1 ≤ N →
      ((ops.foldl (fun acc op => ttlSet acc op.1 op.2.1 op.2.2)
        (TTLCacheState.empty α ttl N)).store.length ≤ N)) ∧
    (∀ (c : TTLCacheState α) (k : String) (v : α) (now : Nat),
      c.max_items ≤ c.store.length →
      (ttlSet c k v now).store =
        aupsert (aerase c.store (oldestKey c.store)) k (now, v) ∧
      ∀ hd tl, c.store = hd :: tl →
        oldestEntry hd tl ∈ c.store ∧
        (oldestEntry hd tl).1 = oldestKey c.store ∧
        ∀ e ∈ c.store, (oldestEntry hd tl).2.1 ≤ e.2.1) := by
  constructor
  · intro ttl N ops hN
    exact foldl_ttlSet_length ops (TTLCacheState.empty α ttl N) hN
      (by simp [TTLCacheState.empty])
  · intro c k v now hfull
    constructor
    · simp [ttlSet, hfull]
    · intro hd tl hstore
      refine ⟨?_, ?_, ?_⟩
      · rw [hstore]; exact oldestEntry_mem hd tl
      · rw [hstore]; simp [oldestKey]
      · intro e he
        rw [hstore] at he
        exact oldestEntry_le hd tl e he

/-- C6 witness: three sets into a capacity-2 tier leave at most 2 entries, and
on the full concrete tier the eviction removes the minimal-timestamp key. -/
theorem C6_witness :
    ((([("a", (1 : Nat), 0), ("b", 2, 1), ("c", 3, 2)] :
        List (String × Nat × Nat)).foldl
      (fun acc op => ttlSet acc op.1 op.2.1 op.2.2)
      (TTLCacheState.empty Nat 10 2)).store.length ≤ 2) ∧
    (ttlSet Examples.cFull "k" 9 5).store =
      aupsert (aerase Examples.cFull.store (oldestKey Examples.cFull.store)) "k"
        (5, 9) := by
  refine ⟨(@C6_capacity_eviction Nat).1 10 2 _ (by decide), ?_⟩
  exact ((@C6_capacity_eviction Nat).2 Examples.cFull "k" 9 5 (by decide)).1

/-- The threshold-table loop computes the nested band mapping of the spec. -/
theorem thresholdDelay_spec (c : Nat) :
    thresholdDelay THRESHOLDS c =
      (if c < 50 then 0 else if c < 100 then 1 else if c < 200 then 10
       else if c < 500 then 60 else 300) := rfl

/-- After pruning, the stored history for the client is exactly the in-window
suffix (with an empty suffix deleting the entry). -/
theorem cleanOld_alookup (hist : List (String × List Int)) (client : String)
    (now : Int) :
    alookup (cleanOldRequests hist client now) client =
      (if (keptOf hist client now).isEmpty then none
       else some (keptOf hist client now)) := by
  unfold cleanOldRequests keptOf
  cases hl : alookup hist client with
  | none => simp [hl]
  | some l =>
      by_cases he : (l.filter (fun ts => now - windowSeconds < ts)).isEmpty
      · simp [hl, he, alookup_aerase_self]
      · simp [hl, he, alookup_aupsert_self]

/-- C7: for a whitelisted client `get_delay` returns 0 and leaves the state
untouched; for any other client it prunes the recorded history to the
60-second window and maps the remaining count through the band table
`<50 → 0`, `<100 → 1`, `<200 → 10`, `<500 → 60`, else `300`. -/
theorem C7_rate_limiter (st : RLState) (client : String) (now : Int) :
    (isWhitelisted st client = true → getDelay st client now = (0, st)) ∧
    (isWhitelisted st client = false →
      (getDelay st client now).1 =
        (if (keptOf st.request_history client now).length < 50 then 0
         else if (keptOf st.request_history client now).length < 100 then 1
         else if (keptOf st.request_history client now).length < 200 then 10
         else if (keptOf st.request_history client now).length < 500 then 60
         else 300) ∧
      alookup (getDelay st client now).2.request_history client =
        (if (keptOf st.request_history client now).isEmpty then none
         else some (keptOf st.request_history client now))) := by
  constructor
  · intro hw
    simp [getDelay, hw]
  · intro hw
    have hceq := cleanOld_alookup st.request_history client now
    constructor
    · show (getDelay st client now).1 = _
      unfold getDelay
      rw [hw]
      simp only [Bool.false_eq_true, if_false]
      rw [hceq, ← thresholdDelay_spec]
      by_cases he : (keptOf st.request_history client now).isEmpty
      · have hnil : keptOf st.request_history client now = [] :=
          List.isEmpty_iff.mp he
        simp [he, hnil]
      · simp [he]
    · unfold getDelay
      rw [hw]
      simp only [Bool.false_eq_true, if_false]
      exact hceq

set_option maxRecDepth 4000 in
/-- C7 witness: the exactly-whitelisted client `10.0.0.9` and the
network-whitelisted client `192.168.1.7` get delay 0 despite 1000 recorded
requests, while the plain client `"c"` with 120 in-window requests gets the
`<200` band delay of 10 seconds. -/
theorem C7_witness :
    getDelay Examples.rlWhitelisted "10.0.0.9" 1000 = (0, Examples.rlWhitelisted) ∧
    getDelay Examples.rlWhitelisted "192.168.1.7" 1000 =
      (0, Examples.rlWhitelisted) ∧
    (getDelay Examples.rlBusy "c" 1000).1 = 10 := by
  refine ⟨(C7_rate_limiter Examples.rlWhitelisted "10.0.0.9" 1000).1 (by rfl),
          (C7_rate_limiter Examples.rlWhitelisted "192.168.1.7" 1000).1 (by decide),
          ?_⟩
  rw [((C7_rate_limiter Examples.rlBusy "c" 1000).2 (by rfl)).1]
  decide

/-- `pendingLe` is transitive. -/
theorem pendingLe_trans (a b c : Midnight.PendingEntry) :
    pendingLe a b = true → pendingLe b c = true → pendingLe a c = true := by
  simp only [pendingLe, Bool.or_eq_true, Bool.and_eq_true, decide_eq_true_eq]
  omega

/-- `pendingLe` is total. -/
theorem pendingLe_total (a b : Midnight.PendingEntry) :
    (pendingLe a b || pendingLe b a) = true := by
  simp only [pendingLe, Bool.or_eq_true, Bool.and_eq_true, decide_eq_true_eq]
  omega

/-- C8 (amended): the daily pass processes exactly the pending rows left by
step 1, ordered by priority descending then access-count descending; on the
concrete scenario (empty queue, accesses 5/1/0 for the unfinished items A/B/C,
finished item D) it enqueues exactly A, B and C and never D — but the
never-accessed item C, created by the pass itself with priority 1, is
enqueued first, giving the order C, A, B. -/
theorem C8_daily_order :
    (∀ (books : List BookRow) (q : List Midnight.PendingEntry) (now : Int),
      List.Pairwise (fun x y => pendingLe x y = true) (midnightOrder books q now) ∧
      List.Perm (midnightOrder books q now)
        ((midnightStep1 books q now).filter (fun e => e.sync_status = "pending"))) ∧
    (runMidnightSync Examples.scenarioBooks Examples.scenarioQueue JMState.init
        100).2.job_queue.map (fun j => j.book_id) = ["C", "A", "B"] := by
  constructor
  · intro books q now
    exact ⟨Sorting.sortByKey_sorted pendingLe pendingLe_trans pendingLe_total _,
           Sorting.sortByKey_perm pendingLe _⟩
  · rfl

/-- C8 counterexample: in the scenario the jobs are NOT enqueued in descending
access-count order (which would be A, B, C): the actual queue order is
C, A, B. -/
theorem C8_counterexample :
    (runMidnightSync Examples.scenarioBooks Examples.scenarioQueue JMState.init
        100).2.job_queue.map (fun j => j.book_id) ≠ ["A", "B", "C"] := by
  decide

/-- `refsPreserve` is reflexive. -/
theorem refsPreserve_rfl (r : ChapterRow) : refsPreserve r r :=
  ⟨rfl, rfl, rfl, fun _ => rfl⟩

/-- `refsPreserve` composes across successive upsert steps. -/
theorem refsPreserve_trans (a b c : ChapterRow) (h1 : refsPreserve a b)
    (h2 : refsPreserve b c) : refsPreserve a c := by
  obtain ⟨t1, b1, n1, p1⟩ := h1
  obtain ⟨t2, b2, n2, p2⟩ := h2
  refine ⟨t2.trans t1, b2.trans b1, n2.trans n1, fun hf => ?_⟩
  have hb := p1 hf
  have hfb : strFalsy b.public_id = false := by rw [hb]; exact hf
  exact (p2 hfb).trans hb

/-- Appending rows does not disturb an existing first match. -/
theorem chLookup_append (db l2 : List ChapterRow) (bq : String) (nq : Int)
    (r : ChapterRow) (h : chLookup db bq nq = some r) :
    chLookup (db ++ l2) bq nq = some r := by
  unfold chLookup at h ⊢
  rw [List.find?_append, h]
  rfl

/-- Replacing the first `(b, n)` row with a key-preserving function turns the
first `(b, n)` match into its image. -/
theorem chLookup_replace (db : List ChapterRow) (b : String) (n : Int)
    (f : ChapterRow → ChapterRow)
    (hf : ∀ x, (f x).book_id = x.book_id ∧ (f x).chapter_num = x.chapter_num)
    (c : ChapterRow) (h : chLookup db b n = some c) :
    chLookup (chReplaceFirst db b n f) b n = some (f c) := by
  induction db with
  | nil => simp [chLookup, List.find?] at h
  | cons d rest ih =>
      unfold chLookup at h ⊢
      unfold chReplaceFirst
      cases hp : (decide (d.book_id = b) && decide (d.chapter_num = n)) with
      | false =>
          rw [List.find?_cons_of_neg _ (by simp_all)] at h
          simp only [hp, Bool.false_eq_true, if_false]
          rw [List.find?_cons_of_neg _ (by simp_all)]
          exact ih h
      | true =>
          rw [List.find?_cons] at h
          simp only [hp] at h
          have hdc : d = c := Option.some.inj h
          have hfp : (decide ((f d).book_id = b) && decide ((f d).chapter_num = n)) =
              true := by
            obtain ⟨h1, h2⟩ := hf d
            rw [h1, h2]
            exact hp
          rw [hdc] at hfp
          simp [List.find?_cons, hfp, hdc]

/-- Replacing the first `(b, n)` row with a key-preserving function does not
change lookups at any other key. -/
theorem chLookup_replace_ne (db : List ChapterRow) (b : String) (n : Int)
    (f : ChapterRow → ChapterRow)
    (hf : ∀ x, (f x).book_id = x.book_id ∧ (f x).chapter_num = x.chapter_num)
    (bq : String) (nq : Int) (hne : ¬(bq = b ∧ nq = n)) :
    chLookup (chReplaceFirst db b n f) bq nq = chLookup db bq nq := by
  induction db with
  | nil => rfl
  | cons d rest ih =>
      unfold chLookup at ih ⊢
      unfold chReplaceFirst
      cases hp : (decide (d.book_id = b) && decide (d.chapter_num = n)) with
      | false =>
          simp only [hp, Bool.false_eq_true, if_false]
          cases hq : (decide (d.book_id = bq) && decide (d.chapter_num = nq)) with
          | false =>
              rw [List.find?_cons_of_neg _ (by simp_all),
                List.find?_cons_of_neg _ (by simp_all)]
              exact ih
          | true =>
              simp [List.find?_cons, hq]
      | true =>
          have hd : d.book_id = b ∧ d.chapter_num = n := by
            simpa using hp
          have hq : (decide (d.book_id = bq) && decide (d.chapter_num = nq)) =
              false := by
            cases hqq : (decide (d.book_id = bq) && decide (d.chapter_num = nq)) with
            | false => rfl
            | true =>
                exfalso
                have hqq2 := (Bool.and_eq_true _ _).mp hqq
                have ha : d.book_id = bq := of_decide_eq_true hqq2.1
                have hb2 : d.chapter_num = nq := of_decide_eq_true hqq2.2
                exact hne ⟨ha.symm.trans hd.1, hb2.symm.trans hd.2⟩
          have hfq : (decide ((f d).book_id = bq) && decide ((f d).chapter_num = nq)) =
              false := by
            obtain ⟨h1, h2⟩ := hf d
            rw [h1, h2]
            exact hq
          simp [List.find?_cons, hq, hfq]

/-- Preservation through the whole reference-upsert loop, for every starting
table and fresh-id counter. -/
theorem storeChapterRefsGo_preserve (b : String) (fresh : Nat → String)
    (refs : List RefData) :
    ∀ (db : List ChapterRow) (i : Nat) (bq : String) (nq : Int) (r : ChapterRow),
      chLookup db bq nq = some r →
      ∃ r', chLookup (storeChapterRefsGo b fresh refs db i) bq nq = some r' ∧
        refsPreserve r r' := by
  induction refs with
  | nil => exact fun db i bq nq r h => ⟨r, h, refsPreserve_rfl r⟩
  | cons r0 rest ih =>
      intro db i bq nq r h
      cases hn : r0.number with
      | none =>
          obtain ⟨r', hr', hp⟩ := ih db i bq nq r h
          exact ⟨r', by simpa [storeChapterRefsGo, hn] using hr', hp⟩
      | some n =>
          cases hc : chLookup db b n with
          | none =>
              obtain ⟨r', hr', hp⟩ := ih (db ++ [newChapterRef b n r0 (fresh i)])
                (i + 1) bq nq r (chLookup_append db _ bq nq r h)
              exact ⟨r', by simpa [storeChapterRefsGo, hn, hc] using hr', hp⟩
          | some c =>
              by_cases hk : bq = b ∧ nq = n
              · obtain ⟨hkb, hkn⟩ := hk
                subst hkb
                subst hkn
                have hrc : r = c := Option.some.inj (h.symm.trans hc)
                subst hrc
                have hrep := chLookup_replace db bq nq
                  (fun c0 => updateChapterRef c0 r0 (fresh i))
                  (fun _ => ⟨rfl, rfl⟩) r hc
                have hpres : refsPreserve r (updateChapterRef r r0 (fresh i)) :=
                  ⟨rfl, rfl, rfl, fun hpf => by simp [updateChapterRef, hpf]⟩
                obtain ⟨r', hr', hp⟩ := ih
                  (chReplaceFirst db bq nq (fun c0 => updateChapterRef c0 r0 (fresh i)))
                  (if strFalsy r.public_id then i + 1 else i) bq nq
                  (updateChapterRef r r0 (fresh i)) hrep
                refine ⟨r', ?_,
                  refsPreserve_trans r (updateChapterRef r r0 (fresh i)) r' hpres hp⟩
                simpa [storeChapterRefsGo, hn, hc] using hr'
              · have hother := chLookup_replace_ne db b n
                  (fun c0 => updateChapterRef c0 r0 (fresh i))
                  (fun _ => ⟨rfl, rfl⟩) bq nq hk
                obtain ⟨r', hr', hp⟩ := ih
                  (chReplaceFirst db b n (fun c0 => updateChapterRef c0 r0 (fresh i)))
                  (if strFalsy c.public_id then i + 1 else i) bq nq r
                  (by rw [hother]; exact h)
                exact ⟨r', by simpa [storeChapterRefsGo, hn, hc] using hr', hp⟩

/-- C9: the chapter-reference batch upsert never touches stored content — any
row present before the upsert is still found afterwards with the same text
body, the same identifying keys, and (if it already had one) the same public
identifier; only title, url and a missing public identifier may change. -/
theorem C9_refs_keep_text (db : List ChapterRow) (b : String) (refs : List RefData)
    (fresh : Nat → String) (bq : String) (nq : Int) (r : ChapterRow)
    (h : chLookup db bq nq = some r) :
    ∃ r', chLookup (storeChapterRefs db b refs fresh) bq nq = some r' ∧
      refsPreserve r r' :=
  storeChapterRefsGo_preserve b fresh refs db 0 bq nq r h

/-- C9 witness: upserting a reference (new title and url, no content) over the
chapter that already stores `"body"` preserves the text, keys and public id. -/
theorem C9_witness :
    ∃ r', chLookup
        (storeChapterRefs [Examples.chWithText] "B" [Examples.refForCh]
          Examples.freshIds) "B" 1 = some r' ∧
      refsPreserve Examples.chWithText r' :=
  C9_refs_keep_text [Examples.chWithText] "B" [Examples.refForCh]
    Examples.freshIds "B" 1 Examples.chWithText (by rfl)
